import Mathlib

/-!
Shallow embedding of the `auria-router` crate (`src/lib.rs`): the routing
strategies `DeterministicRouter`, `GatingRouter`, `RoundRobinRouter`, the
`AnyRouter` dispatcher, and theorems about the routing claims.

Modelling conventions:
* `u32`/`u64`/`usize` values are `Nat`, with wrapping made explicit
  (`% 4294967296` for the `as u32` cast and `u32` addition).
* `HashMap<ExpertId, f32>` is an association list in iteration order; theorems
  quantify over the (arbitrary) order where it could matter.
* `f32` values are modelled by `F32` (every finite `f32` is a rational; NaN and
  the two infinities are separate points).  Comparison (`partial_cmp`) and
  `f32::max` are modelled exactly; rounding arithmetic (`-`, `/`, `exp`, `+`)
  is kept abstract in `F32Ops`, and no claim depends on its numeric values.
* `RoundRobinRouter`'s atomic cursor is a plain counter threaded through
  `route`, which returns the updated router alongside the decision; the
  `fetch_add` wraps modulo 2^64 as `AtomicUsize` arithmetic does on the
  assumed 64-bit target.
* Panic analysis: `checked` variants surface every documented Rust panic
  point, including `slice::sort_by`'s total-order precondition for the
  NaN-collapsing weight comparator.
-/

/-- Modelled from the spec: `ExpertId` lives in the external `auria_core` crate,
not under `src/`; per §3 it is a 32-byte opaque value used only as an
equality/ordering/hash key, and `lib.rs` constructs it as `ExpertId(bytes)` from
a `[u8; 32]`.  The payload is modelled as a list of byte values. -/
structure ExpertId where
  bytes : List Nat
deriving DecidableEq

/-- Modelled from the spec: `Tier` lives in `auria_core`; per §3 it is the
closed enumeration `{Nano, Standard, Pro, Max}`. -/
inductive Tier where
  | Nano
  | Standard
  | Pro
  | Max
deriving DecidableEq

/-- Modelled from the spec: `RoutingDecision` lives in `auria_core`; per §3 it
is an ordered sequence of `ExpertId` in the field `expert_ids`. -/
structure RoutingDecision where
  expert_ids : List ExpertId
deriving DecidableEq

/-- The `match tier` table repeated verbatim in every `route` implementation in
`lib.rs` (lines 44-49, 60-65, 113-118, 156-161): Nano→2, Standard→4, Pro→8,
Max→16. -/
def kOf : Tier → Nat
  | .Nano => 2
  | .Standard => 4
  | .Pro => 8
  | .Max => 16

/-- Model of the `f32` values the router manipulates.  Every finite `f32` is a
rational number, carried exactly; `NaN` and the infinities are separate
points. -/
inductive F32 where
  | nan
  | negInf
  | posInf
  | fin (q : ℚ)
deriving DecidableEq

/-- Model of `f32::partial_cmp`: `none` iff either operand is NaN, otherwise the total
order -∞ < finite (by value) < +∞. -/
def F32.pcmp : F32 → F32 → Option Ordering
  | .nan, _ => none
  | _, .nan => none
  | .negInf, .negInf => some .eq
  | .negInf, _ => some .lt
  | _, .negInf => some .gt
  | .posInf, .posInf => some .eq
  | _, .posInf => some .lt
  | .posInf, _ => some .gt
  | .fin a, .fin b => if a < b then some .lt else if a = b then some .eq else some .gt

/-- Strict comparison as the source observes it: `a.partial_cmp(b) == Some(Less)`. -/
def F32.lt (a b : F32) : Prop := a.pcmp b = some Ordering.lt

instance (a b : F32) : Decidable (F32.lt a b) := by
  unfold F32.lt; infer_instance

/-- Model of `f32::max` as used by the softmax fold: returns the other operand when one
is NaN, otherwise the larger. -/
def F32.fmax : F32 → F32 → F32
  | .nan, b => b
  | a, .nan => a
  | a, b => if a.pcmp b = some Ordering.lt then b else a

/-- The finite-precision arithmetic `GatingRouter::softmax` performs on `f32`
(`-`, `/`, `f32::exp`, and the `+` inside `iter().sum()`).  These operations
round (and `exp` is transcendental), so they are kept abstract: every theorem
about `GatingRouter` holds for an arbitrary interpretation, and no claim
depends on their numeric values. -/
structure F32Ops where
  sub : F32 → F32 → F32
  div : F32 → F32 → F32
  exp : F32 → F32
  add : F32 → F32 → F32

/-- An arbitrary concrete interpretation of `F32Ops`, used only to instantiate
universally quantified theorems at concrete inputs. -/
def someOps : F32Ops := ⟨fun a _ => a, fun a _ => a, fun a => a, fun a _ => a⟩

/-- Weight maps: `HashMap<ExpertId, f32>` modelled as an association list in iteration
order. -/
abbrev WeightMap := List (ExpertId × F32)

/-- The comparator `|a, b| b.1.partial_cmp(a.1).unwrap_or(Ordering::Equal)`
used by both weight-ranking sorts (`lib.rs` lines 68 and 123): descending by
weight, NaN comparisons collapsed to `Equal`. -/
def weightCmp (a b : ExpertId × F32) : Ordering :=
  (F32.pcmp b.2 a.2).getD Ordering.eq

/-- The non-strict order induced by `weightCmp`, as consumed by the sort model:
`slice::sort_by` places `a` no later than `b` exactly when the comparator does
not return `Greater`. -/
def weightLe (a b : ExpertId × F32) : Bool :=
  match weightCmp a b with
  | .gt => false
  | _ => true

/-- Stable insertion step of the sort model. -/
def rinsert (le : α → α → Bool) (a : α) : List α → List α
  | [] => [a]
  | b :: l => if le a b then a :: b :: l else b :: rinsert le a l

/-- Model of `slice::sort_by` (a stable sort ordered by the comparator) as a
stable insertion sort.  Stability is irrelevant to every claim proved here:
ties only arise from equal weights or NaN, whose relative order already comes
from the arbitrary `HashMap` iteration order. -/
def rsort (le : α → α → Bool) : List α → List α
  | [] => []
  | a :: l => rinsert le a (rsort le l)

/-- State of `DeterministicRouter { expert_count: u32 }` (`lib.rs` lines 21-23). -/
structure DeterministicRouter where
  expert_count : Nat
deriving DecidableEq

/-- The `u32` wrap-around modulus (the `as u32` cast and `u32` addition in
`get_top_k_experts` are reductions modulo this constant). -/
def u32Mod : Nat := 4294967296

/-- Encoding `val.to_le_bytes()` spliced into `bytes[0..4]` of a zeroed `[u8; 32]`
(`lib.rs` lines 34-36): little-endian 4-byte encoding, remaining 28 bytes
zero. -/
def encodeId (v : Nat) : ExpertId :=
  ⟨[v % 256, v / 256 % 256, v / 65536 % 256, v / 16777216 % 256] ++ List.replicate 28 0⟩

/-- Source `DeterministicRouter::get_top_k_experts` (`lib.rs` lines 30-39): for `i` in
`0..k`, `val = ((token_index as u32) + i) % self.expert_count.max(1)`; the cast
truncates `token_index` to 32 bits and the `u32` addition wraps. -/
def DeterministicRouter.get_top_k_experts (r : DeterministicRouter) (token_index : Nat)
    (k : Nat) : List ExpertId :=
  (List.range k).map fun i =>
    encodeId ((token_index % u32Mod + i) % u32Mod % max r.expert_count 1)

/-- Source `DeterministicRouter::route` (`lib.rs` lines 43-52). -/
def DeterministicRouter.route (r : DeterministicRouter) (tier : Tier) (token_index : Nat) :
    RoutingDecision :=
  ⟨r.get_top_k_experts token_index (kOf tier)⟩

/-- Source `DeterministicRouter::route_with_weights` (`lib.rs` lines 54-73): sort the
supplied weight map by the descending-weight comparator, take `k`, keep the
keys.  `token_index` is unused by the source. -/
def DeterministicRouter.route_with_weights (_r : DeterministicRouter) (tier : Tier)
    (_token_index : Nat) (weights : WeightMap) : RoutingDecision :=
  ⟨((rsort weightLe weights).take (kOf tier)).map Prod.fst⟩

/-- State of `GatingRouter { gate_weights, temperature }` (`lib.rs` lines 76-79). -/
structure GatingRouter where
  gate_weights : WeightMap
  temperature : F32

/-- Source `GatingRouter::softmax` (`lib.rs` lines 97-108): fold `f32::max` over the
values starting from `NEG_INFINITY`, exponentiate `(w - max) / temperature`,
sum the exponentials (from `0.0`), divide each by the sum. -/
def GatingRouter.softmax (ops : F32Ops) (weights : WeightMap) (temperature : F32) : WeightMap :=
  let max_weight := (weights.map Prod.snd).foldl F32.fmax F32.negInf
  let exp_weights := weights.map fun p =>
    (p.1, ops.exp (ops.div (ops.sub p.2 max_weight) temperature))
  let sum := (exp_weights.map Prod.snd).foldl ops.add (F32.fin 0)
  exp_weights.map fun p => (p.1, ops.div p.2 sum)

/-- Source `GatingRouter::route` (`lib.rs` lines 112-128): softmax the internal
`gate_weights`, rank by probability descending, take `k`.  `token_index` is
unused by the source. -/
def GatingRouter.route (ops : F32Ops) (g : GatingRouter) (tier : Tier) (_token_index : Nat) :
    RoutingDecision :=
  let probs := GatingRouter.softmax ops g.gate_weights g.temperature
  ⟨((rsort weightLe probs).take (kOf tier)).map Prod.fst⟩

/-- Source `GatingRouter::route_with_weights` (`lib.rs` lines 130-137): ignores the
supplied weights and delegates to `route`. -/
def GatingRouter.route_with_weights (ops : F32Ops) (g : GatingRouter) (tier : Tier)
    (token_index : Nat) (_weights : WeightMap) : RoutingDecision :=
  GatingRouter.route ops g tier token_index

/-- The `usize` wrap-around modulus, 2^64, for the assumed 64-bit target:
`AtomicUsize::fetch_add` is defined to wrap around on overflow (atomic
operations never panic), so the cursor update reduces modulo this constant. -/
def usizeMod : Nat := 18446744073709551616

/-- State of `RoundRobinRouter { experts: Vec<ExpertId>, current: AtomicUsize }`
(`lib.rs` lines 140-143).  The atomic cursor is a plain counter here; `route`
returns the updated router, making each `fetch_add` an explicit transition.
Reachable states keep `current < usizeMod` (`new` starts it at 0 and every
update reduces modulo `usizeMod`); theorems that depend on the cursor value
carry that invariant as a hypothesis. -/
structure RoundRobinRouter where
  experts : List ExpertId
  current : Nat
deriving DecidableEq

/-- Source `RoundRobinRouter::route` (`lib.rs` lines 155-177): empty pool returns the
empty decision before touching the cursor; otherwise `start` is the
pre-increment cursor value, the `k` experts are read at
`(start + i) % experts.len()`, and the `fetch_add(1)` wraps modulo 2^64 as
`AtomicUsize` arithmetic does. -/
def RoundRobinRouter.route (r : RoundRobinRouter) (tier : Tier) (_token_index : Nat) :
    RoutingDecision × RoundRobinRouter :=
  if r.experts.isEmpty then (⟨[]⟩, r)
  else
    let start := r.current
    let ids := (List.range (kOf tier)).map fun i =>
      r.experts.getD ((start + i) % r.experts.length) ⟨[]⟩
    (⟨ids⟩, { r with current := (r.current + 1) % usizeMod })

/-- Source `RoundRobinRouter::route_with_weights` (`lib.rs` lines 179-186): ignores
the weights and delegates to `route`. -/
def RoundRobinRouter.route_with_weights (r : RoundRobinRouter) (tier : Tier)
    (token_index : Nat) (_weights : WeightMap) : RoutingDecision × RoundRobinRouter :=
  r.route tier token_index

/-- Dispatcher `AnyRouter` (`lib.rs` lines 189-193): closed tagged union over the three
strategies. -/
inductive AnyRouter where
  | deterministic (r : DeterministicRouter)
  | gating (g : GatingRouter)
  | roundRobin (r : RoundRobinRouter)

/-- Source `AnyRouter::route` (`lib.rs` lines 196-202): exhaustive delegation.  The
updated router is returned to thread RoundRobinRouter's cursor. -/
def AnyRouter.route (ops : F32Ops) : AnyRouter → Tier → Nat → RoutingDecision × AnyRouter
  | .deterministic r, tier, t => (r.route tier t, .deterministic r)
  | .gating g, tier, t => (GatingRouter.route ops g tier t, .gating g)
  | .roundRobin r, tier, t =>
    let p := r.route tier t
    (p.1, .roundRobin p.2)

/-- Source `AnyRouter::route_with_weights` (`lib.rs` lines 204-215): exhaustive
delegation. -/
def AnyRouter.route_with_weights (ops : F32Ops) :
    AnyRouter → Tier → Nat → WeightMap → RoutingDecision × AnyRouter
  | .deterministic r, tier, t, w => (r.route_with_weights tier t w, .deterministic r)
  | .gating g, tier, t, w => (GatingRouter.route_with_weights ops g tier t w, .gating g)
  | .roundRobin r, tier, t, w =>
    let p := r.route_with_weights tier t w
    (p.1, .roundRobin p.2)

/-- The "candidate pool size" named by the width-bound claim for `route`:
`expert_count` for DeterministicRouter, the gate-weight-map size for
GatingRouter, the pool size for RoundRobinRouter. -/
def AnyRouter.poolSize : AnyRouter → Nat
  | .deterministic r => r.expert_count
  | .gating g => g.gate_weights.length
  | .roundRobin r => r.experts.length

/-- The candidate pool size for `route_with_weights`: the supplied weight map
for DeterministicRouter (which ranks it), the internal gate-weight map for
GatingRouter (which ignores the argument), the pool for RoundRobinRouter. -/
def AnyRouter.poolSizeW : AnyRouter → WeightMap → Nat
  | .deterministic _, w => w.length
  | .gating g, _ => g.gate_weights.length
  | .roundRobin r, _ => r.experts.length

/-- Remainder `%` with the Rust panic on a zero divisor made explicit. -/
def checkedMod (a b : Nat) : Option Nat :=
  if b = 0 then none else some (a % b)

/-- Variant of `DeterministicRouter::route` with its Rust panic point — the `%` by
`expert_count.max(1)` — surfaced as `Option`. -/
def DeterministicRouter.routeChecked (r : DeterministicRouter) (tier : Tier)
    (token_index : Nat) : Option RoutingDecision :=
  ((List.range (kOf tier)).mapM fun i =>
    (checkedMod ((token_index % u32Mod + i) % u32Mod) (max r.expert_count 1)).map encodeId).map
    RoutingDecision.mk

/-- Variant of `RoundRobinRouter::route` with its Rust panic points — the `%` by
`experts.len()` and the pool indexing — surfaced as `Option`. -/
def RoundRobinRouter.routeChecked (r : RoundRobinRouter) (tier : Tier)
    (_token_index : Nat) : Option (RoutingDecision × RoundRobinRouter) :=
  if r.experts.isEmpty then some (⟨[]⟩, r)
  else
    ((List.range (kOf tier)).mapM fun i =>
      (checkedMod (r.current + i) r.experts.length).bind fun j => r.experts[j]?).map
      fun ids => (⟨ids⟩, { r with current := (r.current + 1) % usizeMod })

/-- The precondition `slice::sort_by` documents for guaranteed panic-freedom:
the comparator, restricted to the elements actually sorted, is a total order
(swap-consistent, and with transitive "not Greater").  Rust's sort may panic
when the comparator violates it. -/
def IsTotalCmp (cmp : α → α → Ordering) (l : List α) : Prop :=
  (∀ a ∈ l, ∀ b ∈ l, cmp a b = (cmp b a).swap) ∧
  (∀ a ∈ l, ∀ b ∈ l, ∀ c ∈ l,
    cmp a b ≠ Ordering.gt → cmp b c ≠ Ordering.gt → cmp a c ≠ Ordering.gt)

instance (cmp : α → α → Ordering) (l : List α) [DecidableEq α] :
    Decidable (IsTotalCmp cmp l) := by
  unfold IsTotalCmp
  infer_instance

/-- The weight-ranking sort with `sort_by`'s documented panic point surfaced:
`none` exactly when the NaN-collapsing comparator fails the total-order
precondition on the given entries, so that panic-freedom is no longer
guaranteed by the library contract. -/
def sortWeightsChecked (l : WeightMap) : Option WeightMap :=
  if IsTotalCmp weightCmp l then some (rsort weightLe l) else none

/-- Variant of `DeterministicRouter::route_with_weights` with its Rust panic
point — the `sort_by` total-order precondition — surfaced as `Option`. -/
def DeterministicRouter.rwwChecked (_r : DeterministicRouter) (tier : Tier)
    (_token_index : Nat) (weights : WeightMap) : Option RoutingDecision :=
  (sortWeightsChecked weights).map fun sorted =>
    ⟨(sorted.take (kOf tier)).map Prod.fst⟩

/-- Variant of `GatingRouter::route` with its Rust panic point — the `sort_by`
total-order precondition on the softmax output — surfaced as `Option` (the
`f32` arithmetic itself never panics). -/
def GatingRouter.routeChecked (ops : F32Ops) (g : GatingRouter) (tier : Tier)
    (_token_index : Nat) : Option RoutingDecision :=
  let probs := GatingRouter.softmax ops g.gate_weights g.temperature
  (sortWeightsChecked probs).map fun sorted =>
    ⟨(sorted.take (kOf tier)).map Prod.fst⟩

/-- Variant of `GatingRouter::route_with_weights` with panic points surfaced:
the source delegates to `route` ignoring the supplied map. -/
def GatingRouter.rwwChecked (ops : F32Ops) (g : GatingRouter) (tier : Tier)
    (token_index : Nat) (_weights : WeightMap) : Option RoutingDecision :=
  GatingRouter.routeChecked ops g tier token_index

/-- Variant of `RoundRobinRouter::route_with_weights` with panic points
surfaced: the source delegates to `route` ignoring the supplied map. -/
def RoundRobinRouter.rwwChecked (r : RoundRobinRouter) (tier : Tier)
    (token_index : Nat) (_weights : WeightMap) :
    Option (RoutingDecision × RoundRobinRouter) :=
  r.routeChecked tier token_index

/-- A concrete weight map mixing NaN with distinct comparable weights: the
NaN-collapsing comparator is not a total order on its entries. -/
def wNaN : WeightMap :=
  [(encodeId 0, F32.nan), (encodeId 1, F32.fin 0), (encodeId 2, F32.fin 1)]

/-- The pre-increment cursor values (`start`) observed by `n` successive
`route` calls, enumerated in the order in which the calls' `fetch_add`
operations act on the cursor.  Atomic read-modify-write operations on a single
location are totally ordered even under `Ordering::Relaxed` (per-location
coherence), and `route` performs exactly one such operation per call, so the
`start` values of any `n`-caller concurrent execution are those of this
sequence for some arrival order. -/
def rrStarts (r : RoundRobinRouter) (tier : Tier) : Nat → List Nat
  | 0 => []
  | n + 1 => r.current :: rrStarts (r.route tier 0).2 tier n

/-- A concrete three-entry weight map with pairwise distinct finite weights,
used to instantiate universally quantified theorems at concrete inputs. -/
def wEx : WeightMap :=
  [(encodeId 0, F32.fin 1), (encodeId 1, F32.fin 2), (encodeId 2, F32.fin 0)]

/-! ### Helper lemmas about the sort model -/

theorem rinsert_length (le : α → α → Bool) (a : α) (l : List α) :
    (rinsert le a l).length = l.length + 1 := by
  induction l with
  | nil => rfl
  | cons b l ih => simp only [rinsert]; split <;> simp [ih]

theorem rsort_length (le : α → α → Bool) (l : List α) :
    (rsort le l).length = l.length := by
  induction l with
  | nil => rfl
  | cons a l ih => simp [rsort, rinsert_length, ih]

theorem rinsert_perm (le : α → α → Bool) (a : α) (l : List α) :
    (rinsert le a l).Perm (a :: l) := by
  induction l with
  | nil => exact List.Perm.refl _
  | cons b l ih =>
    simp only [rinsert]
    split
    · exact List.Perm.refl _
    · exact (ih.cons b).trans (List.Perm.swap a b l)

theorem rsort_perm (le : α → α → Bool) (l : List α) : (rsort le l).Perm l := by
  induction l with
  | nil => exact List.Perm.refl _
  | cons a l ih => exact (rinsert_perm le a (rsort le l)).trans (ih.cons a)

theorem mem_rsort {le : α → α → Bool} {a : α} {l : List α} :
    a ∈ rsort le l ↔ a ∈ l :=
  (rsort_perm le l).mem_iff

/-! ### Length characterizations of the three `route` implementations -/

theorem det_route_length (r : DeterministicRouter) (tier : Tier) (t : Nat) :
    (r.route tier t).expert_ids.length = kOf tier := by
  simp [DeterministicRouter.route, DeterministicRouter.get_top_k_experts]

theorem gating_softmax_length (ops : F32Ops) (w : WeightMap) (temp : F32) :
    (GatingRouter.softmax ops w temp).length = w.length := by
  simp [GatingRouter.softmax]

theorem gating_route_length (ops : F32Ops) (g : GatingRouter) (tier : Tier) (t : Nat) :
    (GatingRouter.route ops g tier t).expert_ids.length =
      min (kOf tier) g.gate_weights.length := by
  simp [GatingRouter.route, rsort_length, gating_softmax_length]

theorem rr_route_length (r : RoundRobinRouter) (tier : Tier) (t : Nat) :
    (r.route tier t).1.expert_ids.length = if r.experts.isEmpty then 0 else kOf tier := by
  unfold RoundRobinRouter.route
  split <;> simp_all

theorem det_rww_length (r : DeterministicRouter) (tier : Tier) (t : Nat) (w : WeightMap) :
    (r.route_with_weights tier t w).expert_ids.length = min (kOf tier) w.length := by
  simp [DeterministicRouter.route_with_weights, rsort_length]

/-! ### Totality helpers -/

theorem mapM_eq_some_map (f : α → Option β) (g : α → β) (l : List α)
    (h : ∀ a ∈ l, f a = some (g a)) : l.mapM f = some (l.map g) := by
  induction l with
  | nil => rfl
  | cons a l ih =>
    rw [List.mapM_cons, h a (List.mem_cons_self a l),
      ih fun x hx => h x (List.mem_cons_of_mem a hx)]
    rfl

theorem det_routeChecked_eq (r : DeterministicRouter) (tier : Tier) (t : Nat) :
    r.routeChecked tier t = some (r.route tier t) := by
  unfold DeterministicRouter.routeChecked DeterministicRouter.route
    DeterministicRouter.get_top_k_experts
  rw [mapM_eq_some_map _
    (fun i => encodeId ((t % u32Mod + i) % u32Mod % max r.expert_count 1))]
  · rfl
  · intro a _
    simp [checkedMod, Nat.max_eq_zero_iff]

theorem rr_routeChecked_eq (r : RoundRobinRouter) (tier : Tier) (t : Nat) :
    r.routeChecked tier t = some (r.route tier t) := by
  unfold RoundRobinRouter.routeChecked RoundRobinRouter.route
  by_cases h : r.experts.isEmpty
  · simp [h]
  · simp only [h, if_false]
    have hne : r.experts.length ≠ 0 := by
      simpa [List.isEmpty_iff_length_eq_zero] using h
    rw [mapM_eq_some_map _
      (fun i => r.experts.getD ((r.current + i) % r.experts.length) ⟨[]⟩)]
    · rfl
    · intro a _
      have hlt : (r.current + a) % r.experts.length < r.experts.length :=
        Nat.mod_lt _ (Nat.pos_of_ne_zero hne)
      simp [checkedMod, hne, List.getD_eq_getElem?_getD, List.getElem?_eq_getElem hlt]

/-! ### Claim theorems: C3, C9, C10, C6, C2 (C5 follows the C4 section) -/

/-- C3: `GatingRouter::route_with_weights` ignores the supplied weight map and
returns exactly what `route` returns, for every router state, tier, token, and
externally supplied map. -/
theorem gating_external_weights_ignored (ops : F32Ops) (g : GatingRouter) (tier : Tier)
    (t : Nat) (w : WeightMap) :
    GatingRouter.route_with_weights ops g tier t w = GatingRouter.route ops g tier t := rfl

/-- C9: `DeterministicRouter::route` always returns exactly `k(tier)` expert
ids — never fewer, never empty — for every `expert_count` (including 0 and
values below `k(tier)`), tier, and token index. -/
theorem det_route_always_full (r : DeterministicRouter) (tier : Tier) (t : Nat) :
    (r.route tier t).expert_ids.length = kOf tier ∧ 0 < kOf tier :=
  ⟨det_route_length r tier t, by cases tier <;> simp [kOf]⟩

/-- C10: on an empty pool, `RoundRobinRouter::route` returns the empty decision
and leaves the router — in particular the rotation cursor — unchanged: the
early return precedes the atomic `fetch_add`. -/
theorem rr_empty_pool_frame (r : RoundRobinRouter) (tier : Tier) (t : Nat)
    (h : r.experts = []) : r.route tier t = (⟨[]⟩, r) := by
  simp [RoundRobinRouter.route, h]

/-- Witness for C10 at the concrete router `⟨[], 7⟩`. -/
theorem rr_empty_pool_frame_witness :
    (RoundRobinRouter.mk [] 7).experts = [] ∧
      RoundRobinRouter.route ⟨[], 7⟩ Tier.Max 3 = (⟨[]⟩, ⟨[], 7⟩) :=
  ⟨rfl, rr_empty_pool_frame ⟨[], 7⟩ Tier.Max 3 rfl⟩

/-- C6 (Scenario D): a fresh `RoundRobinRouter` over `[E0, E1, E2]` answers
three sequential `route(Nano, _)` calls with `[E0, E1]`, `[E1, E2]`,
`[E2, E0]`: each call starts at the pre-increment cursor value and wraps around
the pool. -/
theorem rr_scenario_d (e0 e1 e2 : ExpertId) (t1 t2 t3 : Nat) :
    (RoundRobinRouter.route ⟨[e0, e1, e2], 0⟩ Tier.Nano t1).1 = ⟨[e0, e1]⟩ ∧
    ((RoundRobinRouter.route ⟨[e0, e1, e2], 0⟩ Tier.Nano t1).2.route Tier.Nano t2).1 =
      ⟨[e1, e2]⟩ ∧
    (((RoundRobinRouter.route ⟨[e0, e1, e2], 0⟩ Tier.Nano t1).2.route Tier.Nano t2).2.route
      Tier.Nano t3).1 = ⟨[e2, e0]⟩ :=
  ⟨rfl, rfl, by simp [RoundRobinRouter.route, kOf, List.range_succ, usizeMod]⟩

/-- C2 (counterexample to the claim as stated): at `expert_count = 3`,
`tier = Nano`, `token_index = 2^32`, position 0, the returned id encodes
`(2^32 mod 2^32) mod 3 = 0`, not `(token_index + 0) mod max(expert_count, 1)
= 2^32 mod 3 = 1`: the claim's formula omits the `as u32` truncation. -/
theorem det_route_large_token_counterexample :
    (DeterministicRouter.route ⟨3⟩ Tier.Nano 4294967296).expert_ids[0]? ≠
      some (encodeId ((4294967296 + 0) % max 3 1)) := by decide

/-- C2 (amended): for every `expert_count`, tier, `token_index`, and
`i < k(tier)`, position `i` of `DeterministicRouter::route` holds the id whose
first 4 bytes encode, little-endian,
`((token_index mod 2^32) + i) mod 2^32 mod max(expert_count, 1)` with the
remaining 28 bytes zero (`encodeId`), and the decision has exactly `k(tier)`
entries; the result is a pure function of `(expert_count, tier, token_index)`. -/
theorem det_route_entries (ec : Nat) (tier : Tier) (t i : Nat) (hi : i < kOf tier) :
    (DeterministicRouter.route ⟨ec⟩ tier t).expert_ids[i]? =
      some (encodeId ((t % u32Mod + i) % u32Mod % max ec 1)) ∧
    (DeterministicRouter.route ⟨ec⟩ tier t).expert_ids.length = kOf tier := by
  refine ⟨?_, det_route_length _ tier t⟩
  simp [DeterministicRouter.route, DeterministicRouter.get_top_k_experts,
    List.getElem?_map, List.getElem?_range, hi]

/-- Witness for C2 (amended) at `expert_count = 5`, `tier = Max`,
`token_index = 3`, `i = 2` (Scenario B's third entry, which encodes 0). -/
theorem det_route_entries_witness :
    2 < kOf Tier.Max ∧
      (DeterministicRouter.route ⟨5⟩ Tier.Max 3).expert_ids[2]? =
        some (encodeId ((3 % u32Mod + 2) % u32Mod % max 5 1)) :=
  ⟨by decide, (det_route_entries 5 Tier.Max 3 2 (by decide)).1⟩

/-! ### Claim C1: width bound across all strategies -/

theorem rr_route_bound (r : RoundRobinRouter) (tier : Tier) (t : Nat) :
    (r.route tier t).1.expert_ids.length ≤ kOf tier ∧
      (kOf tier ≤ r.experts.length → (r.route tier t).1.expert_ids.length = kOf tier) := by
  have hlen := rr_route_length r tier t
  by_cases h : r.experts.isEmpty
  · have h0 : r.experts.length = 0 := by
      simpa [List.isEmpty_iff_length_eq_zero] using h
    rw [hlen]
    simp only [h, if_true]
    omega
  · rw [hlen]
    simp [h]

/-- C1: for every strategy, tier, router state, and token index, the decision
of `route` (and of `route_with_weights`) has at most `k(tier)` entries, and
exactly `k(tier)` whenever the strategy's candidate pool (`expert_count`,
gate-weight-map size, round-robin pool size — supplied-map size for the
weight-ranked path) has at least `k(tier)` entries. -/
theorem route_width_bound (ops : F32Ops) (r : AnyRouter) (tier : Tier) (t : Nat)
    (w : WeightMap) :
    ((AnyRouter.route ops r tier t).1.expert_ids.length ≤ kOf tier ∧
      (kOf tier ≤ r.poolSize →
        (AnyRouter.route ops r tier t).1.expert_ids.length = kOf tier)) ∧
    ((AnyRouter.route_with_weights ops r tier t w).1.expert_ids.length ≤ kOf tier ∧
      (kOf tier ≤ r.poolSizeW w →
        (AnyRouter.route_with_weights ops r tier t w).1.expert_ids.length = kOf tier)) := by
  cases r with
  | deterministic d =>
    have h1 := det_route_length d tier t
    have h2 := det_rww_length d tier t w
    exact ⟨⟨le_of_eq h1, fun _ => h1⟩,
      ⟨le_trans (le_of_eq h2) (Nat.min_le_left _ _), fun h => h2.trans (Nat.min_eq_left h)⟩⟩
  | gating g =>
    have h1 := gating_route_length ops g tier t
    exact ⟨⟨le_trans (le_of_eq h1) (Nat.min_le_left _ _), fun h => h1.trans (Nat.min_eq_left h)⟩,
      ⟨le_trans (le_of_eq h1) (Nat.min_le_left _ _), fun h => h1.trans (Nat.min_eq_left h)⟩⟩
  | roundRobin rr =>
    exact ⟨rr_route_bound rr tier t, rr_route_bound rr tier t⟩

/-- Witness for C1: a gating router holding two weights answers a Nano request
(`k = 2`) with exactly 2 experts. -/
theorem route_width_bound_witness :
    kOf Tier.Nano ≤
      (AnyRouter.gating ⟨[(encodeId 0, F32.fin 1), (encodeId 1, F32.fin 0)],
        F32.fin 1⟩).poolSize ∧
    (AnyRouter.route someOps
      (AnyRouter.gating ⟨[(encodeId 0, F32.fin 1), (encodeId 1, F32.fin 0)], F32.fin 1⟩)
      Tier.Nano 0).1.expert_ids.length = kOf Tier.Nano :=
  ⟨by decide,
    (route_width_bound someOps
      (AnyRouter.gating ⟨[(encodeId 0, F32.fin 1), (encodeId 1, F32.fin 0)], F32.fin 1⟩)
      Tier.Nano 0 []).1.2 (by decide)⟩

/-! ### Claim C7: empty gate-weight map -/

/-- C7 (counterexample to the claim as stated): with an empty `gate_weights`
map, `softmax` returns the *empty* probability map — no NaN probability exists,
let alone propagates into the ranking — and `route` returns the empty decision. -/
theorem gating_empty_weights_counterexample :
    GatingRouter.softmax someOps [] (F32.fin 1) = [] ∧
    GatingRouter.route someOps ⟨[], F32.fin 1⟩ Tier.Nano 0 = ⟨[]⟩ ∧
    ¬ ∃ p ∈ GatingRouter.softmax someOps [] (F32.fin 1), p.2 = F32.nan := by
  refine ⟨rfl, rfl, ?_⟩
  simp [GatingRouter.softmax]

/-- C7 (amended): with an empty `gate_weights` map the softmax fold does start
from (and return) `NEG_INFINITY` as the map's maximum, but the resulting
probability map is empty and `route` returns the empty `RoutingDecision`; no
NaN is produced on this path, for any interpretation of the `f32` arithmetic. -/
theorem gating_empty_weights_behavior (ops : F32Ops) (g : GatingRouter) (tier : Tier)
    (t : Nat) (h : g.gate_weights = []) :
    (g.gate_weights.map Prod.snd).foldl F32.fmax F32.negInf = F32.negInf ∧
    GatingRouter.softmax ops g.gate_weights g.temperature = [] ∧
    GatingRouter.route ops g tier t = ⟨[]⟩ := by
  refine ⟨by rw [h]; rfl, by rw [h]; rfl, ?_⟩
  unfold GatingRouter.route
  rw [h]
  simp [GatingRouter.softmax, rsort]

/-- Witness for C7 (amended) at the concrete empty-map router. -/
theorem gating_empty_weights_behavior_witness :
    (GatingRouter.mk [] (F32.fin 1)).gate_weights = [] ∧
      GatingRouter.route someOps ⟨[], F32.fin 1⟩ Tier.Pro 5 = ⟨[]⟩ :=
  ⟨rfl, (gating_empty_weights_behavior someOps ⟨[], F32.fin 1⟩ Tier.Pro 5 rfl).2.2⟩

/-! ### Claim C8: round-robin offset uniqueness -/

theorem rr_route_state (r : RoundRobinRouter) (tier : Tier) (t : Nat)
    (h : r.experts ≠ []) :
    (r.route tier t).2 = ⟨r.experts, (r.current + 1) % usizeMod⟩ := by
  have h' : r.experts.isEmpty = false := by
    simpa [List.isEmpty_iff] using h
  simp [RoundRobinRouter.route, h']

theorem range'_map_mod_congr (M : Nat) :
    ∀ (n c d : Nat), c % M = d % M →
      (List.range' c n).map (· % M) = (List.range' d n).map (· % M) := by
  intro n
  induction n with
  | zero => intro c d _; rfl
  | succ n ih =>
    intro c d h
    rw [List.range'_succ, List.range'_succ, List.map_cons, List.map_cons, h,
      ih (c + 1) (d + 1) (Nat.ModEq.add_right 1 h)]

theorem rrStarts_eq_wrapped (tier : Tier) :
    ∀ (n : Nat) (r : RoundRobinRouter), r.experts ≠ [] → r.current < usizeMod →
      rrStarts r tier n = (List.range' r.current n).map (· % usizeMod) := by
  intro n
  induction n with
  | zero => intro r _ _; rfl
  | succ n ih =>
    intro r h hc
    have hpos : 0 < usizeMod := by decide
    rw [rrStarts, rr_route_state r tier 0 h,
      ih ⟨r.experts, (r.current + 1) % usizeMod⟩ h (Nat.mod_lt _ hpos),
      List.range'_succ, List.map_cons, Nat.mod_eq_of_lt hc,
      range'_map_mod_congr usizeMod n ((r.current + 1) % usizeMod) (r.current + 1)
        (Nat.mod_mod_of_dvd _ dvd_rfl)]

theorem map_mod_range'_nodup (M c n : Nat) (hn : n ≤ M) :
    ((List.range' c n).map (· % M)).Nodup := by
  refine List.Nodup.map_on ?_ (List.nodup_range' c n)
  intro x hx y hy hxy
  rw [List.mem_range'_1] at hx hy
  rcases Nat.le_total x y with hle | hle
  · have hd : M ∣ y - x := (Nat.modEq_iff_dvd' hle).mp hxy
    have h0 : y - x = 0 := Nat.eq_zero_of_dvd_of_lt hd (by omega)
    omega
  · have hd : M ∣ x - y := (Nat.modEq_iff_dvd' hle).mp hxy.symm
    have h0 : x - y = 0 := Nat.eq_zero_of_dvd_of_lt hd (by omega)
    omega

theorem map_mod_range'_pairwise_lt (M c n : Nat) (h : c + n ≤ M) :
    ((List.range' c n).map (· % M)).Pairwise (· < ·) := by
  have he : (List.range' c n).map (· % M) = List.range' c n := by
    have hid : (List.range' c n).map (· % M) = (List.range' c n).map id := by
      refine List.map_congr_left ?_
      intro a ha
      rw [List.mem_range'_1] at ha
      exact Nat.mod_eq_of_lt (by omega)
    rw [hid, List.map_id]
  rw [he]
  exact List.pairwise_lt_range' _ _

/-- C8 (counterexample to the claim as stated): the cursor is an
`AtomicUsize`, and `fetch_add` wraps.  At cursor `2^64 - 1` (reachable after
`2^64 - 1` calls from a fresh router), the next two calls observe the starts
`2^64 - 1` and then `0` — not strictly increasing. -/
theorem rr_starts_wrap_counterexample :
    rrStarts ⟨[encodeId 0], 18446744073709551615⟩ Tier.Nano 2 =
      [18446744073709551615, 0] ∧
    ¬ (rrStarts ⟨[encodeId 0], 18446744073709551615⟩ Tier.Nano 2).Pairwise
      (· < ·) := by
  constructor
  · decide
  · decide

/-- C8 (amended): the `start` offsets observed by `n` calls on a
non-empty-pool `RoundRobinRouter` — in the order their atomic `fetch_add`s
act on the cursor (relaxed RMWs on one location are totally ordered) — are
`current, (current+1) mod 2^64, …`.  They are pairwise distinct whenever
`n ≤ 2^64`, and strictly increasing whenever no wrap occurs
(`current + n ≤ 2^64`); in particular every physically realizable number of
concurrent callers observes pairwise distinct starts. -/
theorem rr_starts_wrapped (r : RoundRobinRouter) (tier : Tier) (n : Nat)
    (h : r.experts ≠ []) (hc : r.current < usizeMod) :
    rrStarts r tier n = (List.range' r.current n).map (· % usizeMod) ∧
    (n ≤ usizeMod → (rrStarts r tier n).Nodup) ∧
    (r.current + n ≤ usizeMod → (rrStarts r tier n).Pairwise (· < ·)) := by
  have he := rrStarts_eq_wrapped tier n r h hc
  refine ⟨he, fun hn => ?_, fun hw => ?_⟩
  · rw [he]
    exact map_mod_range'_nodup usizeMod r.current n hn
  · rw [he]
    exact map_mod_range'_pairwise_lt usizeMod r.current n hw

/-- Witness for C8 (amended): three calls on a fresh single-expert router
observe the strictly increasing, distinct offsets `[0, 1, 2]`. -/
theorem rr_starts_wrapped_witness :
    ((RoundRobinRouter.mk [encodeId 0] 0).experts ≠ [] ∧ 0 < usizeMod ∧
        0 + 3 ≤ usizeMod) ∧
      (rrStarts ⟨[encodeId 0], 0⟩ Tier.Nano 3 =
          (List.range' 0 3).map (· % usizeMod) ∧
        (rrStarts ⟨[encodeId 0], 0⟩ Tier.Nano 3).Pairwise (· < ·)) :=
  ⟨⟨by decide, by decide, by decide⟩,
    (rr_starts_wrapped ⟨[encodeId 0], 0⟩ Tier.Nano 3 (by decide) (by decide)).1,
    (rr_starts_wrapped ⟨[encodeId 0], 0⟩ Tier.Nano 3 (by decide) (by decide)).2.2
      (by decide)⟩

/-! ### Claim C4: weight-ranked top-k selection -/

theorem F32.pcmp_fin_lt_iff {qa qb : ℚ} :
    (F32.fin qa).pcmp (F32.fin qb) = some Ordering.lt ↔ qa < qb := by
  simp only [F32.pcmp]
  rcases lt_trichotomy qa qb with h | h | h
  · simp [h]
  · simp [h, lt_irrefl]
  · simp [h.ne', not_lt.mpr h.le]

theorem F32.pcmp_gt_iff {a b : F32} :
    a.pcmp b = some Ordering.gt ↔ b.pcmp a = some Ordering.lt := by
  cases a with
  | nan => cases b <;> simp [F32.pcmp]
  | negInf => cases b <;> simp [F32.pcmp]
  | posInf => cases b <;> simp [F32.pcmp]
  | fin qa =>
    cases b with
    | nan => simp [F32.pcmp]
    | negInf => simp [F32.pcmp]
    | posInf => simp [F32.pcmp]
    | fin qb =>
      rw [F32.pcmp_fin_lt_iff]
      simp only [F32.pcmp]
      rcases lt_trichotomy qa qb with h | h | h
      · simp [h, h.ne, not_lt.mpr h.le]
      · simp [h, lt_irrefl]
      · simp [h, h.ne', not_lt.mpr h.le]

theorem F32.pcmp_eq_iff {a b : F32} (ha : a ≠ F32.nan) (hb : b ≠ F32.nan) :
    a.pcmp b = some Ordering.eq ↔ a = b := by
  cases a with
  | nan => exact absurd rfl ha
  | negInf => cases b <;> simp_all [F32.pcmp]
  | posInf => cases b <;> simp_all [F32.pcmp]
  | fin qa =>
    cases b with
    | nan => exact absurd rfl hb
    | negInf => simp [F32.pcmp]
    | posInf => simp [F32.pcmp]
    | fin qb =>
      simp only [F32.pcmp, F32.fin.injEq]
      rcases lt_trichotomy qa qb with h | h | h
      · simp [h, h.ne]
      · simp [h, lt_irrefl]
      · simp [h.ne', not_lt.mpr h.le]

theorem F32.pcmp_total {a b : F32} (ha : a ≠ F32.nan) (hb : b ≠ F32.nan) :
    a.pcmp b = some Ordering.lt ∨ a.pcmp b = some Ordering.eq ∨
      a.pcmp b = some Ordering.gt := by
  cases a with
  | nan => exact absurd rfl ha
  | negInf => cases b <;> simp_all [F32.pcmp]
  | posInf => cases b <;> simp_all [F32.pcmp]
  | fin qa =>
    cases b with
    | nan => exact absurd rfl hb
    | negInf => simp [F32.pcmp]
    | posInf => simp [F32.pcmp]
    | fin qb =>
      simp only [F32.pcmp]
      rcases lt_trichotomy qa qb with h | h | h
      · simp [h]
      · simp [h, lt_irrefl]
      · simp [h.ne', not_lt.mpr h.le]

theorem F32.pcmp_lt_trans {a b c : F32} (h1 : a.pcmp b = some Ordering.lt)
    (h2 : b.pcmp c = some Ordering.lt) : a.pcmp c = some Ordering.lt := by
  cases a <;> cases b <;> cases c <;>
      ((try simp_all [F32.pcmp_fin_lt_iff]); (try simp_all [F32.pcmp]); (try linarith))

theorem weightLe_iff {p q : ExpertId × F32} (hp : p.2 ≠ F32.nan) (hq : q.2 ≠ F32.nan) :
    weightLe p q = true ↔
      (F32.pcmp q.2 p.2 = some Ordering.lt ∨ F32.pcmp q.2 p.2 = some Ordering.eq) := by
  unfold weightLe weightCmp
  rcases F32.pcmp_total hq hp with h | h | h <;> rw [h] <;> simp

theorem weightLe_total {p q : ExpertId × F32} (hp : p.2 ≠ F32.nan) (hq : q.2 ≠ F32.nan) :
    weightLe p q = true ∨ weightLe q p = true := by
  rcases F32.pcmp_total hq hp with h | h | h
  · exact Or.inl ((weightLe_iff hp hq).mpr (Or.inl h))
  · exact Or.inl ((weightLe_iff hp hq).mpr (Or.inr h))
  · exact Or.inr ((weightLe_iff hq hp).mpr (Or.inl (F32.pcmp_gt_iff.mp h)))

theorem weightLe_trans {p q r : ExpertId × F32} (hp : p.2 ≠ F32.nan) (hq : q.2 ≠ F32.nan)
    (hr : r.2 ≠ F32.nan) (h1 : weightLe p q = true) (h2 : weightLe q r = true) :
    weightLe p r = true := by
  rcases (weightLe_iff hp hq).mp h1 with h1' | h1' <;>
    rcases (weightLe_iff hq hr).mp h2 with h2' | h2'
  · exact (weightLe_iff hp hr).mpr (Or.inl (F32.pcmp_lt_trans h2' h1'))
  · exact (weightLe_iff hp hr).mpr
      (Or.inl (by rw [(F32.pcmp_eq_iff hr hq).mp h2']; exact h1'))
  · exact (weightLe_iff hp hr).mpr
      (Or.inl (by rw [← (F32.pcmp_eq_iff hq hp).mp h1']; exact h2'))
  · exact (weightLe_iff hp hr).mpr
      (Or.inr ((F32.pcmp_eq_iff hr hp).mpr
        (((F32.pcmp_eq_iff hr hq).mp h2').trans ((F32.pcmp_eq_iff hq hp).mp h1'))))

theorem weightLe_strict {p q : ExpertId × F32} (hp : p.2 ≠ F32.nan) (hq : q.2 ≠ F32.nan)
    (hne : p.2 ≠ q.2) (h : weightLe p q = true) : F32.lt q.2 p.2 := by
  rcases (weightLe_iff hp hq).mp h with h' | h'
  · exact h'
  · exact absurd ((F32.pcmp_eq_iff hq hp).mp h') fun e => hne e.symm

theorem rinsert_pairwise {le : α → α → Bool} {P : α → Prop}
    (htot : ∀ a b, P a → P b → le a b = true ∨ le b a = true)
    (htrans : ∀ a b c, P a → P b → P c → le a b = true → le b c = true → le a c = true)
    (a : α) (ha : P a) (l : List α) (hl : ∀ x ∈ l, P x)
    (hs : l.Pairwise fun x y => le x y = true) :
    (rinsert le a l).Pairwise fun x y => le x y = true := by
  induction l with
  | nil => simp [rinsert]
  | cons b l ih =>
    have hPb : P b := hl b (List.mem_cons_self b l)
    have hl' : ∀ x ∈ l, P x := fun x hx => hl x (List.mem_cons_of_mem b hx)
    have hhead := (List.pairwise_cons.mp hs).1
    have htail := (List.pairwise_cons.mp hs).2
    by_cases hab : le a b = true
    · simp only [rinsert, if_pos hab]
      refine List.Pairwise.cons ?_ hs
      intro x hx
      rcases List.mem_cons.mp hx with rfl | hx'
      · exact hab
      · exact htrans a b x ha hPb (hl' x hx') hab (hhead x hx')
    · simp only [rinsert, if_neg hab]
      refine List.Pairwise.cons ?_ (ih hl' htail)
      intro x hx
      rcases List.mem_cons.mp ((rinsert_perm le a l).mem_iff.mp hx) with hxa | hx'
      · rw [hxa]
        exact (htot a b ha hPb).resolve_left hab
      · exact hhead x hx'

theorem rsort_pairwise {le : α → α → Bool} {P : α → Prop}
    (htot : ∀ a b, P a → P b → le a b = true ∨ le b a = true)
    (htrans : ∀ a b c, P a → P b → P c → le a b = true → le b c = true → le a c = true)
    (l : List α) (hl : ∀ x ∈ l, P x) :
    (rsort le l).Pairwise fun x y => le x y = true := by
  induction l with
  | nil => simp [rsort]
  | cons a l ih =>
    simp only [rsort]
    exact rinsert_pairwise htot htrans a (hl a (List.mem_cons_self a l)) (rsort le l)
      (fun x hx => hl x (List.mem_cons_of_mem a (mem_rsort.mp hx)))
      (ih fun x hx => hl x (List.mem_cons_of_mem a hx))

/-- C4: for pairwise-distinct, non-NaN weights,
`DeterministicRouter::route_with_weights` ignores `token_index` and returns the
keys of the `min(k(tier), |weights|)` largest-weight entries, ordered by weight
strictly descending, with every non-selected entry's weight below every
selected one — for any `HashMap` iteration order of the supplied map. -/
theorem det_rww_top_k (r : DeterministicRouter) (tier : Tier) (t t' : Nat) (w : WeightMap)
    (hnn : ∀ p ∈ w, p.2 ≠ F32.nan) (hd : (w.map Prod.snd).Nodup) :
    r.route_with_weights tier t w = r.route_with_weights tier t' w ∧
    ∃ sel : WeightMap,
      (r.route_with_weights tier t w).expert_ids = sel.map Prod.fst ∧
      sel.length = min (kOf tier) w.length ∧
      (∀ p ∈ sel, p ∈ w) ∧
      sel.Pairwise (fun p q => F32.lt q.2 p.2) ∧
      ∀ p ∈ w, p ∉ sel → ∀ q ∈ sel, F32.lt p.2 q.2 := by
  refine ⟨rfl, ?_⟩
  have hperm : (rsort weightLe w).Perm w := rsort_perm weightLe w
  have hmem : ∀ p ∈ rsort weightLe w, p.2 ≠ F32.nan :=
    fun p hp => hnn p (hperm.mem_iff.mp hp)
  have hsorted : (rsort weightLe w).Pairwise fun x y => weightLe x y = true :=
    rsort_pairwise (P := fun p => p.2 ≠ F32.nan)
      (fun a b ha hb => @weightLe_total a b ha hb)
      (fun a b c ha hb hc => @weightLe_trans a b c ha hb hc) w hnn
  have hvals : ((rsort weightLe w).map Prod.snd).Nodup :=
    ((hperm.map Prod.snd).nodup_iff).mpr hd
  have hne : (rsort weightLe w).Pairwise fun p q => p.2 ≠ q.2 :=
    List.pairwise_map.mp hvals
  have hstrict : (rsort weightLe w).Pairwise fun p q => F32.lt q.2 p.2 := by
    refine (hsorted.and hne).imp_of_mem ?_
    intro p q hp hq hpq
    exact weightLe_strict (hmem p hp) (hmem q hq) hpq.2 hpq.1
  refine ⟨(rsort weightLe w).take (kOf tier), rfl, ?_, ?_, ?_, ?_⟩
  · rw [List.length_take, rsort_length]
  · exact fun p hp => hperm.mem_iff.mp ((List.take_sublist _ _).mem hp)
  · exact hstrict.sublist (List.take_sublist _ _)
  · intro p hpw hpn q hq
    have hpL : p ∈ rsort weightLe w := hperm.mem_iff.mpr hpw
    have hsplit := hstrict
    rw [← List.take_append_drop (kOf tier) (rsort weightLe w)] at hsplit
    have hsep := (List.pairwise_append.mp hsplit).2.2
    have hpd : p ∈ (rsort weightLe w).drop (kOf tier) := by
      rcases List.mem_append.mp
          ((List.take_append_drop (kOf tier) (rsort weightLe w)).symm ▸ hpL) with h | h
      · exact absurd h hpn
      · exact h
    exact hsep q hq p hpd

/-- Witness for C4 at the concrete map `wEx` (weights 1, 2, 0): the hypotheses
hold and the result ignores the token index. -/
theorem det_rww_top_k_witness :
    (∀ p ∈ wEx, p.2 ≠ F32.nan) ∧ (wEx.map Prod.snd).Nodup ∧
      DeterministicRouter.route_with_weights ⟨5⟩ Tier.Nano 0 wEx =
        DeterministicRouter.route_with_weights ⟨5⟩ Tier.Nano 99 wEx :=
  ⟨by decide, by decide,
    (det_rww_top_k ⟨5⟩ Tier.Nano 0 99 wEx (by decide) (by decide)).1⟩

/-! ### Claim C5: no panic on any routing path -/

theorem weightLe_ne_gt (a b : ExpertId × F32) :
    weightLe a b = true ↔ weightCmp a b ≠ Ordering.gt := by
  unfold weightLe
  cases hcmp : weightCmp a b <;> simp [hcmp]

theorem nanFree_totalCmp (w : WeightMap) (hnn : ∀ p ∈ w, p.2 ≠ F32.nan) :
    IsTotalCmp weightCmp w := by
  constructor
  · intro a ha b hb
    unfold weightCmp
    rcases F32.pcmp_total (hnn b hb) (hnn a ha) with h | h | h
    · rw [h, F32.pcmp_gt_iff.mpr h]
      rfl
    · have hba : b.2 = a.2 := (F32.pcmp_eq_iff (hnn b hb) (hnn a ha)).mp h
      rw [h, (F32.pcmp_eq_iff (hnn a ha) (hnn b hb)).mpr hba.symm]
      rfl
    · rw [h, F32.pcmp_gt_iff.mp h]
      rfl
  · intro a ha b hb c hc h1 h2
    rw [← weightLe_ne_gt] at h1 h2 ⊢
    exact weightLe_trans (hnn a ha) (hnn b hb) (hnn c hc) h1 h2

/-- C5 (counterexample to the claim as stated): on a weight map mixing NaN
with distinct comparable weights, the NaN-collapsing comparator is not a total
order, so `slice::sort_by`'s documented no-panic guarantee does not cover the
weight-ranking call — the checked model, which surfaces every documented panic
point, reports `none` for `route_with_weights` at this concrete state. -/
theorem rww_nan_counterexample :
    ¬ IsTotalCmp weightCmp wNaN ∧
    DeterministicRouter.rwwChecked ⟨3⟩ Tier.Nano 0 wNaN = none := by
  constructor
  · decide
  · decide

/-- C5 (amended): with every documented Rust panic point surfaced as `Option`
(`checkedMod` for the `%` operations, `·[·]?` for the pool indexing, and the
`sort_by` total-order precondition for the weight-ranking sorts):
`DeterministicRouter::route` and `RoundRobinRouter::route` return the total
model unconditionally — including `expert_count = 0` and the empty pool — and
every weight-ranking path (`DeterministicRouter::route_with_weights`,
`GatingRouter::route`, and the delegating `route_with_weights` wrappers)
returns it whenever the ranked entries' comparator is a total order, which
holds in particular for every NaN-free weight map (so also for the claim's
remaining degenerate input, the empty map). -/
theorem routing_panic_points_guarded :
    (∀ (r : DeterministicRouter) (tier : Tier) (t : Nat),
      r.routeChecked tier t = some (r.route tier t)) ∧
    (∀ (r : RoundRobinRouter) (tier : Tier) (t : Nat),
      r.routeChecked tier t = some (r.route tier t)) ∧
    (∀ (r : DeterministicRouter) (tier : Tier) (t : Nat) (w : WeightMap),
      IsTotalCmp weightCmp w →
        r.rwwChecked tier t w = some (r.route_with_weights tier t w)) ∧
    (∀ (ops : F32Ops) (g : GatingRouter) (tier : Tier) (t : Nat),
      IsTotalCmp weightCmp (GatingRouter.softmax ops g.gate_weights g.temperature) →
        GatingRouter.routeChecked ops g tier t = some (GatingRouter.route ops g tier t)) ∧
    (∀ (ops : F32Ops) (g : GatingRouter) (tier : Tier) (t : Nat) (w : WeightMap),
      GatingRouter.rwwChecked ops g tier t w = GatingRouter.routeChecked ops g tier t) ∧
    (∀ (r : RoundRobinRouter) (tier : Tier) (t : Nat) (w : WeightMap),
      r.rwwChecked tier t w = r.routeChecked tier t) ∧
    (∀ w : WeightMap, (∀ p ∈ w, p.2 ≠ F32.nan) → IsTotalCmp weightCmp w) := by
  refine ⟨det_routeChecked_eq, rr_routeChecked_eq, ?_, ?_,
    fun _ _ _ _ _ => rfl, fun _ _ _ _ => rfl, nanFree_totalCmp⟩
  · intro r tier t w hw
    simp only [DeterministicRouter.rwwChecked, sortWeightsChecked]
    rw [if_pos hw]
    rfl
  · intro ops g tier t hw
    simp only [GatingRouter.routeChecked, sortWeightsChecked]
    rw [if_pos hw]
    rfl

/-- Witness for C5 (amended): the empty weight map — one of the claim's named
degenerate inputs — satisfies the sort precondition, and the checked weighted
route returns the (empty) decision even with `expert_count = 0`. -/
theorem routing_panic_points_guarded_witness :
    IsTotalCmp weightCmp ([] : WeightMap) ∧
      DeterministicRouter.rwwChecked ⟨0⟩ Tier.Nano 7 [] =
        some (DeterministicRouter.route_with_weights ⟨0⟩ Tier.Nano 7 []) :=
  ⟨by decide, routing_panic_points_guarded.2.2.1 ⟨0⟩ Tier.Nano 7 [] (by decide)⟩
